import Mathlib

/-!
Shallow embedding of `src/paritydb/src/journal.rs` (the write-ahead journal of
the paritydb storage engine): checksummed log segments ("eras"), the per-segment
point-lookup cache, the directory/naming logic, and the `Journal` collection
with its `open`, `push`, `get`, `drain_front` and `len` operations.

Modelling conventions:
- bytes are `Nat`s, byte strings are `List Nat`, path strings are `List Char`;
- the external collaborators (the `tiny_keccak::sha3_256` digest and the
  `transaction` crate's payload parser `OperationsIterator`) are passed in as
  explicit function arguments `h : List Nat → List Nat` and
  `parse : List Nat → List Operation`;
- `std::collections::HashMap` is modelled as an association list whose `insert`
  replaces an existing binding for the same key (exactly the observable
  behaviour the journal code relies on);
- the file system is explicit state: a directory is a listing of file names,
  file contents are an association list `FS`, and fallible operations return
  `Except JErr`.
-/

deriving instance DecidableEq for Except

namespace ParityDB

/-- External `transaction::Operation` (not under `src/`).
Modelled from the spec: "`Insert(key, value)` or `Delete(key)`". -/
inductive Operation where
  | insert (key value : List Nat)
  | delete (key : List Nat)
deriving DecidableEq, Repr

/-- The key of an operation (both variants carry one). -/
def opKey : Operation → List Nat
  | .insert k _ => k
  | .delete k => k

/-- `enum JournalOperation<T> { Insert(T), Delete }` from journal.rs. -/
inductive JournalOperation (α : Type) where
  | insert (value : α)
  | delete
deriving DecidableEq, Repr

/-- The `(key, JournalOperation)` pair that `cache_memory` produces for one
parsed operation (journal.rs lines 64-67). -/
def opToJournal : Operation → JournalOperation (List Nat)
  | .insert _ v => .insert v
  | .delete _ => .delete

/-- `const CHECKSUM_SIZE: usize = 32;` -/
def CHECKSUM_SIZE : Nat := 32

/-- The in-memory point-lookup index: `HashMap<JournalSlice, JournalOperation>`
modelled as an association list (zero-copy slices are modelled as the byte
lists they denote). -/
abbrev Cache := List (List Nat × JournalOperation (List Nat))

/-- `HashMap::insert` semantics: replace the binding for an existing key,
otherwise add a new binding. -/
def cacheInsert : Cache → List Nat → JournalOperation (List Nat) → Cache
  | [], k, v => [(k, v)]
  | (k1, v1) :: t, k, v =>
    if k = k1 then (k, v) :: t else (k1, v1) :: cacheInsert t k v

/-- `HashMap::get` semantics on the association-list model. -/
def cacheLookup : Cache → List Nat → Option (JournalOperation (List Nat))
  | [], _ => none
  | (k1, v1) :: t, k => if k = k1 then some v1 else cacheLookup t k

/-- `cache_memory(memory)` (journal.rs lines 62-68): parse the payload with
`OperationsIterator` and collect the `(key, operation)` pairs into the map;
collecting repeated keys keeps the last pair. -/
def cache_memory (parse : List Nat → List Operation) (memory : List Nat) : Cache :=
  (parse memory).foldl (fun m o => cacheInsert m (opKey o) (opToJournal o)) []

/-- The error surface consumed by journal.rs (`error::ErrorKind` plus the
pass-through io / integer-parse failures). -/
inductive JErr where
  | invalidJournalLocation (path : List Char)
  | journalEraMissing (idx : Nat)
  | corruptedJournal (path : List Char) (expected got : List Nat)
  | parseError
  | ioAlreadyExists (path : List Char)
  | ioError
deriving DecidableEq, Repr

/-- File system contents: path → file bytes. -/
abbrev FS := List (List Char × List Nat)

/-- Look up a file's bytes. -/
def fsLookup : FS → List Char → Option (List Nat)
  | [], _ => none
  | (p1, c1) :: t, p => if p = p1 then some c1 else fsLookup t p

/-- `struct JournalEra { file, mmap, cache }`; `mmap` is the full mapped file
content (checksum header included), `cache` the index built at open time. -/
structure JournalEra where
  file : List Char
  mmap : List Nat
  cache : Cache
deriving DecidableEq, Repr

/-- `JournalEra::open` (journal.rs lines 100-127): split the content into the
32-byte stored checksum and the payload, recompute the digest `h` over the
payload, fail with `CorruptedJournal(file, Expected/Got)` on mismatch, and
otherwise build the cache from the payload. -/
def JournalEra.open (h : List Nat → List Nat) (parse : List Nat → List Operation)
    (file : List Char) (content : List Nat) : Except JErr JournalEra :=
  let checksum := content.take CHECKSUM_SIZE
  let data := content.drop CHECKSUM_SIZE
  let hash := h data
  if hash ≠ checksum then
    .error (.corruptedJournal file hash checksum)
  else
    .ok { file := file, mmap := content, cache := cache_memory parse data }

/-- `JournalEra::create` (journal.rs lines 86-98): hash the transaction's raw
bytes, open the file with `create_new` (failing if the path already exists),
write digest then payload, and re-open the written file. -/
def JournalEra.create (h : List Nat → List Nat) (parse : List Nat → List Operation)
    (fs : FS) (file_path : List Char) (raw : List Nat) : Except JErr (FS × JournalEra) :=
  let hash := h raw
  match fsLookup fs file_path with
  | some _ => .error (.ioAlreadyExists file_path)
  | none =>
    let content := hash ++ raw
    let fs1 := (file_path, content) :: fs
    match JournalEra.open h parse file_path content with
    | .error e => .error e
    | .ok era => .ok (fs1, era)

/-- `JournalEra::get` (journal.rs lines 129-137): cache lookup, converting the
stored zero-copy slices back to byte strings. -/
def JournalEra.get (e : JournalEra) (key : List Nat) : Option (JournalOperation (List Nat)) :=
  match cacheLookup e.cache key with
  | none => none
  | some (.insert v) => some (.insert v)
  | some .delete => some .delete

/-- Modelled from the spec: the total order of the external
`transaction::Operation` (not under `src/`), "primarily by key bytes", under
which two operations on the same key compare equal — this is the order
`BTreeSet<Operation>` uses in `JournalEra::iter`. `keyLt` is strict
byte-lexicographic comparison of keys. -/
def keyLt : List Nat → List Nat → Bool
  | [], [] => false
  | [], _ :: _ => true
  | _ :: _, [] => false
  | a :: as, b :: bs => if a < b then true else if b < a then false else keyLt as bs

/-- `BTreeSet::replace` on a key-sorted list: insert the operation at its sorted
position, replacing any stored operation with an equal key. -/
def setReplace : List Operation → Operation → List Operation
  | [], o => [o]
  | x :: t, o =>
    if keyLt (opKey o) (opKey x) then o :: x :: t
    else if opKey o = opKey x then o :: t
    else x :: setReplace t o

/-- `JournalEra::iter` (journal.rs lines 140-148): re-parse the payload on every
call and fold each operation into the sorted set with `replace`. -/
def JournalEra.iter (parse : List Nat → List Operation) (e : JournalEra) : List Operation :=
  (parse (e.mmap.drop CHECKSUM_SIZE)).foldl setReplace []

namespace dir

/-- `".era"` as a character list. -/
def ERA_EXTENSION : List Char := ".era".data

/-- `file_name.ends_with(ERA_EXTENSION)` (journal.rs line 172). -/
def endsWithEra (name : List Char) : Bool :=
  name.reverse.take 4 = ERA_EXTENSION.reverse

/-- Byte-lexicographic `≤` on paths, the order `era_files.sort()` uses. -/
def pathLe : List Char → List Char → Bool
  | [], _ => true
  | _ :: _, [] => false
  | a :: as, b :: bs =>
    if a.toNat < b.toNat then true
    else if b.toNat < a.toNat then false
    else pathLe as bs

/-- Insert a path into a sorted list of paths. -/
def insortPath (x : List Char) : List (List Char) → List (List Char)
  | [] => [x]
  | y :: t => if pathLe x y then x :: y :: t else y :: insortPath x t

/-- `Vec::sort` on paths (insertion sort; the journal only relies on the sorted
result). -/
def sortPaths (l : List (List Char)) : List (List Char) :=
  l.foldr insortPath []

/-- `str::parse::<u64>`: optional leading `+`, then one or more decimal digits,
value below `2^64`. -/
def parseU64 (s : List Char) : Option Nat :=
  let digits := match s with
    | '+' :: rest => rest
    | _ => s
  if digits = [] then none
  else if digits.all Char.isDigit then
    let v := digits.foldl (fun a c => a * 10 + (c.toNat - 48)) 0
    if v < 2 ^ 64 then some v else none
  else none

/-- `dir::era_index` (journal.rs lines 195-198): render the path to a string,
strip the last `ERA_EXTENSION.len()` characters, parse the remainder as `u64`
and add 1. -/
def era_index (path : List Char) : Except JErr Nat :=
  match parseU64 (path.take (path.length - ERA_EXTENSION.length)) with
  | some n => .ok (1 + n)
  | none => .error .parseError

/-- The gap-validation loop of `dir::era_files` (journal.rs lines 178-190):
walk the sorted paths keeping the previous index; accept an index equal to
`last + 1` or a first index, otherwise fail with `JournalEraMissing(idx)`. -/
def checkGaps : Option Nat → List (List Char) → Except JErr Unit
  | _, [] => .ok ()
  | last, f :: rest =>
    match era_index f with
    | .error e => .error e
    | .ok idx =>
      match last with
      | some l => if idx = l + 1 then checkGaps (some idx) rest else .error (.journalEraMissing idx)
      | none => checkGaps (some idx) rest

/-- `dir::era_files` (journal.rs lines 164-193): fail unless the location is a
directory; keep the entries whose file name ends in `.era`, map them to full
paths (`dir/name`), sort, and validate the index sequence. -/
def era_files (dirIsDir : Bool) (dirPath : List Char) (listing : List (List Char)) :
    Except JErr (List (List Char)) :=
  if dirIsDir = false then .error (.invalidJournalLocation dirPath)
  else
    let files := sortPaths ((listing.filter endsWithEra).map (fun n => dirPath ++ '/' :: n))
    match checkGaps none files with
    | .ok _ => .ok files
    | .error e => .error e

/-- `dir::next_era_index` (journal.rs lines 200-205): `era_index` of the last
file, or 0 for an empty list. -/
def next_era_index (files : List (List Char)) : Except JErr Nat :=
  match files.getLast? with
  | some path => era_index path
  | none => .ok 0

/-- `dir::next_era_filename` (journal.rs lines 207-211):
`dir/{next_index}.era`. -/
def next_era_filename (d : List Char) (next_index : Nat) : List Char :=
  d ++ '/' :: (Nat.toDigits 10 next_index ++ ERA_EXTENSION)

end dir

/-- `struct Journal { dir, eras, next_era_index }`; the `VecDeque` is a list
whose head is the oldest era. -/
structure Journal where
  dir : List Char
  eras : List JournalEra
  next_era_index : Nat
deriving DecidableEq, Repr

/-- Open every listed era file in order, propagating the first failure
(`era_files.into_iter().map(JournalEra::open).collect::<Result<_>>()`). -/
def openEras (h : List Nat → List Nat) (parse : List Nat → List Operation)
    (fs : FS) : List (List Char) → Except JErr (List JournalEra)
  | [] => .ok []
  | p :: rest =>
    match fsLookup fs p with
    | none => .error .ioError
    | some content =>
      match JournalEra.open h parse p content with
      | .error e => .error e
      | .ok era =>
        match openEras h parse fs rest with
        | .error e => .error e
        | .ok eras => .ok (era :: eras)

/-- `Journal::open` (journal.rs lines 222-237): list and validate the era
files, compute the next era index, open every era in order. -/
def Journal.open (h : List Nat → List Nat) (parse : List Nat → List Operation)
    (dirIsDir : Bool) (dirPath : List Char) (listing : List (List Char)) (fs : FS) :
    Except JErr Journal :=
  match dir.era_files dirIsDir dirPath listing with
  | .error e => .error e
  | .ok files =>
    match dir.next_era_index files with
    | .error e => .error e
    | .ok nidx =>
      match openEras h parse fs files with
      | .error e => .error e
      | .ok eras => .ok { dir := dirPath, eras := eras, next_era_index := nidx }

/-- `Journal::push` (journal.rs lines 239-247): compute the new era's filename,
increment `next_era_index`, then create the era and append it at the back; a
creation failure leaves the incremented index and unchanged eras behind. -/
def Journal.push (h : List Nat → List Nat) (parse : List Nat → List Operation)
    (fs : FS) (j : Journal) (raw : List Nat) : Journal × Except JErr FS :=
  let new_path := dir.next_era_filename j.dir j.next_era_index
  let j1 : Journal := { j with next_era_index := j.next_era_index + 1 }
  match JournalEra.create h parse fs new_path raw with
  | .error e => (j1, .error e)
  | .ok (fs1, new_era) => ({ j1 with eras := j1.eras ++ [new_era] }, .ok fs1)

/-- `Journal::drain_front` (journal.rs lines 249-251): remove and return the
`elems` oldest eras. -/
def Journal.drain_front (j : Journal) (elems : Nat) : List JournalEra × Journal :=
  (j.eras.take elems, { j with eras := j.eras.drop elems })

/-- `Journal::len` (journal.rs lines 253-255). -/
def Journal.len (j : Journal) : Nat :=
  j.eras.length

/-- The scan in `Journal::get` (journal.rs lines 258-265) over an explicit era
list (newest era first). -/
def journalScan : List JournalEra → List Nat → Option (List Nat)
  | [], _ => none
  | e :: rest, key =>
    match e.get key with
    | some (.insert v) => some v
    | some .delete => none
    | none => journalScan rest key

/-- `Journal::get` (journal.rs lines 257-268): scan `eras.iter().rev()`. -/
def Journal.get (j : Journal) (key : List Nat) : Option (List Nat) :=
  journalScan j.eras.reverse key

/-- Spec-side description of `Journal::get`, for the refinement comparison:
the first segment, newest to oldest, that mentions the key decides the result
(insert → its value, tombstone → absent); absent when no segment mentions it. -/
def specJournalGet (eras : List JournalEra) (key : List Nat) : Option (List Nat) :=
  match eras.reverse.find? (fun e => (e.get key).isSome) with
  | some e =>
    match e.get key with
    | some (.insert v) => some v
    | _ => none
  | none => none

/-- Spec-side description of a segment's point lookup, for the refinement
comparison: the last operation in file order for the key (absent if the key is
never mentioned). -/
def specLastOp (ops : List Operation) (key : List Nat) : Option (JournalOperation (List Nat)) :=
  match ops.reverse.find? (fun o => opKey o == key) with
  | some o => some (opToJournal o)
  | none => none

/-- A digest stand-in for concrete witnesses: a constant 32-byte value. -/
def h0 : List Nat → List Nat := fun _ => List.replicate 32 0

/-- The spec's last-write-wins transaction: insert k→v1, insert k→v2,
insert k3→v3, delete k3 (with k = [1], v1 = [10], v2 = [20], k3 = [3]). -/
def ops0 : List Operation :=
  [.insert [1] [10], .insert [1] [20], .insert [3] [30], .delete [3]]

/-- A payload parser stand-in for concrete witnesses: every payload parses to
`ops0`. -/
def parse0 : List Nat → List Operation := fun _ => ops0

/-- A segment file content whose stored checksum matches `h0` (32 zero bytes,
empty payload). -/
def scenContent : List Nat := List.replicate 32 0

/-- The era that `JournalEra.open h0 parse0 [] scenContent` produces. -/
def scenEra : JournalEra :=
  { file := [], mmap := scenContent, cache := cache_memory parse0 (scenContent.drop CHECKSUM_SIZE) }

/-- An era whose cache is built (as at open time) from the given operations. -/
def eraOfOps (ops : List Operation) : JournalEra :=
  { file := [], mmap := [], cache := cache_memory (fun _ => ops) [] }

/-- Journal scenario: key [1] inserted in segment 0 and deleted in segment 2. -/
def jDel : Journal :=
  { dir := "d".data
    eras := [eraOfOps [.insert [1] [10]], eraOfOps [], eraOfOps [.delete [1]]]
    next_era_index := 3 }

/-- Journal scenario: key [1] inserted in segment 0 and re-inserted with a new
value in segment 1. -/
def jShadow : Journal :=
  { dir := "d".data
    eras := [eraOfOps [.insert [1] [10]], eraOfOps [.insert [1] [20]]]
    next_era_index := 2 }

/-- A two-segment journal used to exercise `drain_front`. -/
def jTwo : Journal :=
  { dir := "d".data
    eras := [eraOfOps [.insert [1] [10]], eraOfOps [.insert [2] [20]]]
    next_era_index := 2 }

/-- A segment file content with a 3-byte payload, checksummed by `h0`. -/
def c4content : List Nat := List.replicate 32 0 ++ [1, 2, 3]

/-- A freshly opened journal over directory `d` (no segments yet). -/
def jEmpty : Journal := { dir := "d".data, eras := [], next_era_index := 0 }

/-- A file system on which `jEmpty`'s first push fails: the path of segment 0
already exists. -/
def pushFailFS : FS := [(dir.next_era_filename "d".data 0, [])]

/-! ## Helper lemmas -/

theorem find_append {α : Type} (p : α → Bool) :
    ∀ (l1 l2 : List α), (l1 ++ l2).find? p =
      match l1.find? p with
      | some x => some x
      | none => l2.find? p := by
  intro l1 l2
  induction l1 with
  | nil => rfl
  | cons a t ih =>
    by_cases hp : p a
    · simp [List.find?_cons, hp]
    · simp only [List.cons_append, List.find?_cons, Bool.not_eq_true] at *
      rw [hp, ih]

theorem cacheLookup_cacheInsert (m : Cache) (k : List Nat) (v : JournalOperation (List Nat))
    (k1 : List Nat) :
    cacheLookup (cacheInsert m k v) k1 = if k1 = k then some v else cacheLookup m k1 := by
  induction m with
  | nil => simp [cacheInsert, cacheLookup]
  | cons p t ih =>
    obtain ⟨k2, v2⟩ := p
    by_cases h : k = k2
    · subst h
      by_cases h1 : k1 = k <;> simp [cacheInsert, cacheLookup, h1]
    · by_cases h1 : k1 = k2
      · subst h1
        simp [cacheInsert, cacheLookup, h, Ne.symm h]
      · simp [cacheInsert, cacheLookup, h, h1, ih]

theorem cacheLookup_foldl (ops : List Operation) :
    ∀ (m : Cache) (k : List Nat),
      cacheLookup (ops.foldl (fun m o => cacheInsert m (opKey o) (opToJournal o)) m) k =
        match ops.reverse.find? (fun o => opKey o == k) with
        | some o => some (opToJournal o)
        | none => cacheLookup m k := by
  induction ops with
  | nil => intro m k; rfl
  | cons o t ih =>
    intro m k
    simp only [List.foldl_cons, List.reverse_cons]
    rw [ih, find_append]
    by_cases hf : (List.find? (fun o => opKey o == k) t.reverse).isSome
    · obtain ⟨x, hx⟩ := Option.isSome_iff_exists.mp hf
      rw [hx]
    · rw [Option.not_isSome_iff_eq_none.mp hf]
      by_cases hk : opKey o = k
      · simp [List.find?_cons, hk, cacheLookup_cacheInsert]
      · have hk1 : k ≠ opKey o := fun hh => hk hh.symm
        simp [List.find?_cons, hk, cacheLookup_cacheInsert, hk1]

theorem get_eq_cacheLookup (e : JournalEra) (k : List Nat) :
    e.get k = cacheLookup e.cache k := by
  unfold JournalEra.get
  cases hc : cacheLookup e.cache k with
  | none => rfl
  | some op => cases op <;> rfl

theorem journalScan_eq_find (l : List JournalEra) (k : List Nat) :
    journalScan l k =
      match l.find? (fun e => (e.get k).isSome) with
      | some e =>
        match e.get k with
        | some (.insert v) => some v
        | _ => none
      | none => none := by
  induction l with
  | nil => rfl
  | cons e rest ih =>
    cases hg : e.get k with
    | none => simp [journalScan, hg, List.find?_cons, ih]
    | some op => cases op <;> simp [journalScan, hg, List.find?_cons]

theorem journalScan_none (l : List JournalEra) (k : List Nat)
    (hall : ∀ e ∈ l, JournalEra.get e k = none) : journalScan l k = none := by
  induction l with
  | nil => rfl
  | cons e rest ih =>
    have he : e.get k = none := hall e (List.mem_cons_self e rest)
    simp [journalScan, he]
    exact ih fun x hx => hall x (List.mem_cons_of_mem e hx)

theorem keyLt_false_ne (a : List Nat) :
    ∀ (b : List Nat), keyLt a b = false → a ≠ b → keyLt b a = true := by
  induction a with
  | nil =>
    intro b h hne
    cases b with
    | nil => exact absurd rfl hne
    | cons x xs => simp [keyLt] at h
  | cons x xs ih =>
    intro b h hne
    cases b with
    | nil => simp [keyLt]
    | cons y ys =>
      by_cases h1 : x < y
      · simp [keyLt, h1] at h
      · by_cases h2 : y < x
        · simp [keyLt, h1, h2]
        · have hxy : x = y := Nat.le_antisymm (Nat.not_lt.mp h2) (Nat.not_lt.mp h1)
          subst hxy
          simp only [keyLt, if_neg h1, if_neg h2] at h ⊢
          exact ih ys h fun hh => hne (by rw [hh])

theorem keyLt_trans (a : List Nat) :
    ∀ (b c : List Nat), keyLt a b = true → keyLt b c = true → keyLt a c = true := by
  induction a with
  | nil =>
    intro b c hab hbc
    cases b with
    | nil => simp [keyLt] at hab
    | cons y ys =>
      cases c with
      | nil => simp [keyLt] at hbc
      | cons z zs => simp [keyLt]
  | cons x xs ih =>
    intro b c hab hbc
    cases b with
    | nil => simp [keyLt] at hab
    | cons y ys =>
      cases c with
      | nil => simp [keyLt] at hbc
      | cons z zs =>
        by_cases hxy : x < y
        · by_cases hyz : y < z
          · simp [keyLt, Nat.lt_trans hxy hyz]
          · by_cases hzy : z < y
            · simp [keyLt, hyz, hzy] at hbc
            · have : y = z := Nat.le_antisymm (Nat.not_lt.mp hzy) (Nat.not_lt.mp hyz)
              subst this
              simp [keyLt, hxy]
        · by_cases hyx : y < x
          · simp [keyLt, hxy, hyx] at hab
          · have hxy2 : x = y := Nat.le_antisymm (Nat.not_lt.mp hyx) (Nat.not_lt.mp hxy)
            subst hxy2
            simp only [keyLt, if_neg hxy, if_neg hyx] at hab
            by_cases hyz : x < z
            · simp [keyLt, hyz]
            · by_cases hzy : z < x
              · simp [keyLt, hyz, hzy] at hbc
              · have : x = z := Nat.le_antisymm (Nat.not_lt.mp hzy) (Nat.not_lt.mp hyz)
                subst this
                simp only [keyLt, if_neg hyz, if_neg hzy] at hbc ⊢
                exact ih ys zs hab hbc

theorem mem_setReplace {y o : Operation} :
    ∀ {s : List Operation}, y ∈ setReplace s o → y = o ∨ y ∈ s := by
  intro s
  induction s with
  | nil => intro hy; simp only [setReplace, List.mem_singleton] at hy; exact Or.inl hy
  | cons x t ih =>
    intro hy
    simp only [setReplace] at hy
    by_cases h1 : keyLt (opKey o) (opKey x)
    · rw [if_pos h1] at hy
      rcases List.mem_cons.mp hy with hy | hy
      · exact Or.inl hy
      · exact Or.inr hy
    · rw [if_neg h1] at hy
      by_cases h2 : opKey o = opKey x
      · rw [if_pos h2] at hy
        rcases List.mem_cons.mp hy with hy | hy
        · exact Or.inl hy
        · exact Or.inr (List.mem_cons_of_mem x hy)
      · rw [if_neg h2] at hy
        rcases List.mem_cons.mp hy with hy | hy
        · exact Or.inr (by rw [hy]; exact List.mem_cons_self x t)
        · rcases ih hy with hh | hh
          · exact Or.inl hh
          · exact Or.inr (List.mem_cons_of_mem x hh)

theorem pairwise_setReplace (o : Operation) :
    ∀ (s : List Operation),
      s.Pairwise (fun a b => keyLt (opKey a) (opKey b) = true) →
      (setReplace s o).Pairwise (fun a b => keyLt (opKey a) (opKey b) = true) := by
  intro s
  induction s with
  | nil => intro _; simp [setReplace]
  | cons x t ih =>
    intro hp
    rw [List.pairwise_cons] at hp
    obtain ⟨hx, ht⟩ := hp
    by_cases h1 : keyLt (opKey o) (opKey x)
    · simp only [setReplace, if_pos h1]
      refine List.Pairwise.cons ?_ (List.Pairwise.cons hx ht)
      intro z hz
      rcases List.mem_cons.mp hz with hh | hh
      · rw [hh]; exact h1
      · exact keyLt_trans _ _ _ h1 (hx z hh)
    · by_cases h2 : opKey o = opKey x
      · simp only [setReplace, if_neg h1, if_pos h2]
        refine List.Pairwise.cons ?_ ht
        intro z hz
        rw [show opKey o = opKey x from h2]
        exact hx z hz
      · simp only [setReplace, if_neg h1, if_neg h2]
        refine List.Pairwise.cons ?_ (ih ht)
        intro z hz
        rcases mem_setReplace hz with hh | hh
        · rw [hh]
          exact keyLt_false_ne _ _ (Bool.not_eq_true _ ▸ h1) h2
        · exact hx z hh

theorem find_setReplace (o : Operation) (k : List Nat) :
    ∀ (s : List Operation),
      (setReplace s o).find? (fun x => opKey x == k) =
        if opKey o = k then some o else s.find? (fun x => opKey x == k) := by
  intro s
  induction s with
  | nil =>
    simp only [setReplace]
    by_cases hk : opKey o = k <;> simp [List.find?_cons, hk]
  | cons x t ih =>
    simp only [setReplace]
    by_cases h1 : keyLt (opKey o) (opKey x)
    · rw [if_pos h1]
      by_cases hk : opKey o = k <;> simp [List.find?_cons, hk]
    · rw [if_neg h1]
      by_cases h2 : opKey o = opKey x
      · rw [if_pos h2]
        by_cases hk : opKey o = k
        · simp [List.find?_cons, hk]
        · have hxk : ¬ opKey x = k := fun hh => hk (h2.trans hh)
          simp [List.find?_cons, hk, hxk]
      · rw [if_neg h2]
        by_cases hxk : opKey x = k
        · have hk : ¬ opKey o = k := fun hh => h2 (hh.trans hxk.symm)
          rw [if_neg hk]
          simp [List.find?_cons, hxk]
        · by_cases hk : opKey o = k
          · rw [if_pos hk]
            simp [List.find?_cons, hxk, ih, hk]
          · rw [if_neg hk]
            simp [List.find?_cons, hxk, ih, hk]

theorem find_foldl_setReplace (ops : List Operation) :
    ∀ (acc : List Operation) (k : List Nat),
      ((ops.foldl setReplace acc).find? (fun x => opKey x == k)) =
        match ops.reverse.find? (fun o => opKey o == k) with
        | some o => some o
        | none => acc.find? (fun x => opKey x == k) := by
  induction ops with
  | nil => intro acc k; rfl
  | cons o t ih =>
    intro acc k
    simp only [List.foldl_cons, List.reverse_cons]
    rw [ih, find_append]
    by_cases hf : (List.find? (fun o => opKey o == k) t.reverse).isSome
    · obtain ⟨x, hx⟩ := Option.isSome_iff_exists.mp hf
      rw [hx]
    · rw [Option.not_isSome_iff_eq_none.mp hf]
      by_cases hk : opKey o = k <;>
        simp [List.find?_cons, hk, find_setReplace]

theorem pairwise_foldl_setReplace (ops : List Operation) :
    ∀ (acc : List Operation),
      acc.Pairwise (fun a b => keyLt (opKey a) (opKey b) = true) →
      (ops.foldl setReplace acc).Pairwise (fun a b => keyLt (opKey a) (opKey b) = true) := by
  induction ops with
  | nil => intro acc h; exact h
  | cons o t ih =>
    intro acc h
    exact ih _ (pairwise_setReplace o acc h)

theorem open_eq (h : List Nat → List Nat) (parse : List Nat → List Operation)
    (file : List Char) (content : List Nat) :
    JournalEra.open h parse file content =
      if h (content.drop CHECKSUM_SIZE) ≠ content.take CHECKSUM_SIZE then
        .error (.corruptedJournal file (h (content.drop CHECKSUM_SIZE)) (content.take CHECKSUM_SIZE))
      else
        .ok { file := file, mmap := content,
              cache := cache_memory parse (content.drop CHECKSUM_SIZE) } := rfl

theorem create_eq (h : List Nat → List Nat) (parse : List Nat → List Operation)
    (fs : FS) (path : List Char) (raw : List Nat) :
    JournalEra.create h parse fs path raw =
      match fsLookup fs path with
      | some _ => .error (.ioAlreadyExists path)
      | none =>
        match JournalEra.open h parse path (h raw ++ raw) with
        | .error e => .error e
        | .ok era => .ok ((path, h raw ++ raw) :: fs, era) := rfl

/-! ## Claims -/

/-- C1: `Journal::get` scans segments from most-recently-appended to oldest and
returns the value bytes of the first insert found for the key, or absent
immediately upon a tombstone or after exhausting the oldest segment with no
match (refinement against the spec-side `specJournalGet`); in particular a key
inserted in segment 0 and deleted in segment 2 is absent, and a key inserted in
segment 0 and re-inserted in segment 1 yields segment 1's value. -/
theorem journal_get_most_recent_write_wins (j : Journal) (key : List Nat) :
    Journal.get j key = specJournalGet j.eras key ∧
    Journal.get jDel [1] = none ∧
    Journal.get jShadow [1] = some [20] := by
  refine ⟨?_, by decide, by decide⟩
  unfold Journal.get specJournalGet
  exact journalScan_eq_find j.eras.reverse key

/-- C2: contrary to the claim, `Journal::open` on a directory `jd` whose
segment files form the contiguous zero-based run 0.era, 1.era, 2.era does not
succeed with 3 segments: `dir::era_index` parses the whole path string
`jd/0` (directory prefix included) as a `u64`, so open fails with an integer
parse error for every hash function, parser and file system. -/
theorem journal_open_contiguous_run_parse_error (h : List Nat → List Nat)
    (parse : List Nat → List Operation) (fs : FS) :
    Journal.open h parse true "jd".data ["0.era".data, "1.era".data, "2.era".data] fs =
      .error .parseError := rfl

/-- C3: contrary to the claim, a directory `jd` holding segments at indices
0 and 2 does not fail with a missing-segment error naming index 1:
`dir::era_files` fails with an integer parse error (the directory prefix makes
`era_index` unparseable); and even on bare file names, where the parse
succeeds, the gap-validation loop reports `JournalEraMissing(3)` — the shifted
`era_index` of the file after the gap — not the missing index 1. -/
theorem era_files_gap_error_misnames_index :
    dir.era_files true "jd".data ["0.era".data, "2.era".data] = .error .parseError ∧
    dir.checkGaps none ["0.era".data, "2.era".data] = .error (.journalEraMissing 3) ∧
    JErr.journalEraMissing 3 ≠ JErr.journalEraMissing 1 := by
  exact ⟨by decide, by decide, by decide⟩

/-- C4: `JournalEra::open` recomputes the digest over all bytes after the
32-byte header and compares it with the stored digest: it fails with a
corruption error carrying the file path, the expected digest and the actual
stored digest exactly when the two differ, and succeeds otherwise. -/
theorem era_open_checksum_verification (h : List Nat → List Nat)
    (parse : List Nat → List Operation) (path : List Char) (content : List Nat)
    (h32 : CHECKSUM_SIZE ≤ content.length) :
    (JournalEra.open h parse path content =
        .error (.corruptedJournal path (h (content.drop CHECKSUM_SIZE))
          (content.take CHECKSUM_SIZE)) ↔
      h (content.drop CHECKSUM_SIZE) ≠ content.take CHECKSUM_SIZE) ∧
    (h (content.drop CHECKSUM_SIZE) = content.take CHECKSUM_SIZE →
      JournalEra.open h parse path content =
        .ok { file := path, mmap := content,
              cache := cache_memory parse (content.drop CHECKSUM_SIZE) }) := by
  rw [open_eq]
  by_cases he : h (content.drop CHECKSUM_SIZE) = content.take CHECKSUM_SIZE
  · rw [if_neg (not_not_intro he)]
    exact ⟨⟨fun hc => Except.noConfusion hc, fun hne => absurd he hne⟩, fun _ => rfl⟩
  · rw [if_pos he]
    exact ⟨⟨fun _ => he, fun _ => rfl⟩, fun hcontra => absurd hcontra he⟩

/-- Witness for C4 at a concrete 35-byte file whose stored digest matches. -/
theorem era_open_checksum_verification_witness :
    CHECKSUM_SIZE ≤ c4content.length ∧
    ((JournalEra.open h0 parse0 [] c4content =
        .error (.corruptedJournal [] (h0 (c4content.drop CHECKSUM_SIZE))
          (c4content.take CHECKSUM_SIZE)) ↔
      h0 (c4content.drop CHECKSUM_SIZE) ≠ c4content.take CHECKSUM_SIZE) ∧
    (h0 (c4content.drop CHECKSUM_SIZE) = c4content.take CHECKSUM_SIZE →
      JournalEra.open h0 parse0 [] c4content =
        .ok { file := [], mmap := c4content,
              cache := cache_memory parse0 (c4content.drop CHECKSUM_SIZE) })) :=
  ⟨by decide, era_open_checksum_verification h0 parse0 [] c4content (by decide)⟩

/-- C5: for a segment opened from a transaction, `JournalEra::get` returns
absent for a key never mentioned, the value of the last operation on the key if
it was an insert, and a tombstone if it was a delete (refinement against the
spec-side `specLastOp`); on the transaction insert k→v1, insert k→v2,
insert k3, delete k3 it yields get(k) = v2, get(k3) = tombstone. -/
theorem era_get_last_write_wins (h : List Nat → List Nat)
    (parse : List Nat → List Operation) (path : List Char) (content : List Nat)
    (era : JournalEra) (key : List Nat)
    (hopen : JournalEra.open h parse path content = .ok era) :
    era.get key = specLastOp (parse (content.drop CHECKSUM_SIZE)) key ∧
    scenEra.get [1] = some (.insert [20]) ∧
    scenEra.get [3] = some .delete ∧
    scenEra.get [4] = none := by
  refine ⟨?_, by decide, by decide, by decide⟩
  have hcache : era.cache = cache_memory parse (content.drop CHECKSUM_SIZE) := by
    rw [open_eq] at hopen
    by_cases he : h (content.drop CHECKSUM_SIZE) = content.take CHECKSUM_SIZE
    · rw [if_neg (not_not_intro he)] at hopen
      cases hopen
      rfl
    · rw [if_pos he] at hopen
      exact Except.noConfusion hopen
  rw [get_eq_cacheLookup, hcache]
  unfold cache_memory specLastOp
  rw [cacheLookup_foldl]
  cases hf : (parse (content.drop CHECKSUM_SIZE)).reverse.find? (fun o => opKey o == key) <;>
    simp [hf, cacheLookup]

/-- Witness for C5: the segment opened from `scenContent` under the concrete
digest `h0` and parser `parse0`. -/
theorem era_get_last_write_wins_witness :
    JournalEra.open h0 parse0 [] scenContent = .ok scenEra ∧
    (scenEra.get [1] = specLastOp (parse0 (scenContent.drop CHECKSUM_SIZE)) [1] ∧
     scenEra.get [1] = some (.insert [20]) ∧
     scenEra.get [3] = some .delete ∧
     scenEra.get [4] = none) :=
  ⟨rfl, era_get_last_write_wins h0 parse0 [] scenContent scenEra [1] rfl⟩

/-- C6 counterexample: on the file list 1.era, 10.era, 2.era — exactly the
order `era_files`' lexicographic sort produces for these names —
`next_era_index` returns 3, not one past the highest existing index
(1 + 10 = 11), because it applies `era_index` to the lexicographically last
file rather than the numerically largest one. -/
theorem next_era_index_counterexample :
    dir.next_era_index ["1.era".data, "10.era".data, "2.era".data] = .ok 3 ∧
    dir.next_era_index ["1.era".data, "10.era".data, "2.era".data] ≠ .ok (1 + 10) ∧
    dir.sortPaths ["1.era".data, "2.era".data, "10.era".data] =
      ["1.era".data, "10.era".data, "2.era".data] := by
  exact ⟨by decide, by decide, by decide⟩

/-- C6 amended: `next_era_index` returns 0 for an empty file list; for a
nonempty list it returns 1 + the index encoded by the stem of the LAST file of
the list, which equals one past the highest existing index only when that last
file's stem parses and encodes the maximum index of the list (guaranteed for
bare numerically-sorted file names, but not by the code's lexicographic sort
once indices exceed one digit, and never for directory-prefixed paths). -/
theorem next_era_index_amended (files : List (List Char)) (lastf : List Char) (i : Nat)
    (hlast : files.getLast? = some lastf)
    (hparse : dir.parseU64 (lastf.take (lastf.length - dir.ERA_EXTENSION.length)) = some i)
    (hmax : ∀ f ∈ files,
      (dir.parseU64 (f.take (f.length - dir.ERA_EXTENSION.length))).getD 0 ≤ i) :
    dir.next_era_index ([] : List (List Char)) = .ok 0 ∧
    dir.next_era_index files = .ok (1 + i) := by
  refine ⟨rfl, ?_⟩
  unfold dir.next_era_index
  rw [hlast]
  show dir.era_index lastf = Except.ok (1 + i)
  unfold dir.era_index
  rw [hparse]

/-- Witness for C6 amended at the bare contiguous run 0.era, 1.era, 2.era. -/
theorem next_era_index_amended_witness :
    ["0.era".data, "1.era".data, "2.era".data].getLast? = some "2.era".data ∧
    dir.parseU64 ("2.era".data.take ("2.era".data.length - dir.ERA_EXTENSION.length)) = some 2 ∧
    (∀ f ∈ ["0.era".data, "1.era".data, "2.era".data],
      (dir.parseU64 (f.take (f.length - dir.ERA_EXTENSION.length))).getD 0 ≤ 2) ∧
    (dir.next_era_index ([] : List (List Char)) = .ok 0 ∧
     dir.next_era_index ["0.era".data, "1.era".data, "2.era".data] = .ok (1 + 2)) :=
  ⟨by decide, by decide, by decide,
    next_era_index_amended ["0.era".data, "1.era".data, "2.era".data] "2.era".data 2
      (by decide) (by decide) (by decide)⟩

/-- C7: for a journal holding at least n segments, `drain_front(n)` removes
and returns exactly the n oldest segments in original order, `len` drops by n,
keys satisfied only by drained segments are no longer found by `Journal::get`,
and lookups on the remaining journal still resolve by the newest-to-oldest
rule over the remaining segments. -/
theorem drain_front_removes_oldest (j : Journal) (n : Nat) (key : List Nat)
    (hn : n ≤ j.eras.length) :
    (Journal.drain_front j n).1 ++ (Journal.drain_front j n).2.eras = j.eras ∧
    (Journal.drain_front j n).1.length = n ∧
    (Journal.drain_front j n).2.len = j.len - n ∧
    ((∀ e ∈ (Journal.drain_front j n).2.eras, JournalEra.get e key = none) →
      Journal.get (Journal.drain_front j n).2 key = none) ∧
    Journal.get (Journal.drain_front j n).2 key = specJournalGet (j.eras.drop n) key := by
  refine ⟨List.take_append_drop n j.eras, ?_, ?_, ?_, ?_⟩
  · show (j.eras.take n).length = n
    rw [List.length_take]
    exact Nat.min_eq_left hn
  · simp [Journal.drain_front, Journal.len]
  · intro hall
    unfold Journal.get
    apply journalScan_none
    intro e he
    exact hall e (List.mem_reverse.mp he)
  · unfold Journal.get specJournalGet
    exact journalScan_eq_find _ key

/-- Witness for C7: draining 1 of 2 segments; the drained segment was the only
one holding key [1], which the remaining journal no longer finds. -/
theorem drain_front_removes_oldest_witness :
    1 ≤ jTwo.eras.length ∧
    ((Journal.drain_front jTwo 1).1 ++ (Journal.drain_front jTwo 1).2.eras = jTwo.eras ∧
     (Journal.drain_front jTwo 1).1.length = 1 ∧
     (Journal.drain_front jTwo 1).2.len = jTwo.len - 1 ∧
     ((∀ e ∈ (Journal.drain_front jTwo 1).2.eras, JournalEra.get e [1] = none) →
       Journal.get (Journal.drain_front jTwo 1).2 [1] = none) ∧
     Journal.get (Journal.drain_front jTwo 1).2 [1] = specJournalGet (jTwo.eras.drop 1) [1]) :=
  ⟨by decide, drain_front_removes_oldest jTwo 1 [1] (by decide)⟩

/-- C8: `JournalEra::iter` is pure, so repeated calls return identical ordered
output; that output is the canonical deduplicated view of the segment: its
keys are strictly sorted (hence one operation per key), and the operation kept
for each key is the last operation in file order for that key. -/
theorem era_iter_canonical_sorted (parse : List Nat → List Operation)
    (e : JournalEra) (key : List Nat) :
    JournalEra.iter parse e = JournalEra.iter parse e ∧
    (JournalEra.iter parse e).Pairwise (fun a b => keyLt (opKey a) (opKey b) = true) ∧
    (JournalEra.iter parse e).find? (fun o => opKey o == key) =
      (parse (e.mmap.drop CHECKSUM_SIZE)).reverse.find? (fun o => opKey o == key) := by
  refine ⟨rfl, ?_, ?_⟩
  · exact pairwise_foldl_setReplace _ [] List.Pairwise.nil
  · unfold JournalEra.iter
    rw [find_foldl_setReplace]
    cases hf : (parse (e.mmap.drop CHECKSUM_SIZE)).reverse.find? (fun o => opKey o == key) <;>
      simp [hf]

/-- C9: `JournalEra::create` fails when the path already exists (exclusive
creation); when it does not exist it writes the 32-byte digest of the
transaction's raw bytes followed by the payload and re-opens that file before
returning, yielding the opened segment. -/
theorem era_create_exclusive_and_reopens (h : List Nat → List Nat)
    (parse : List Nat → List Operation) (fs fs2 : FS) (path : List Char)
    (raw c2 : List Nat)
    (hex : fsLookup fs2 path = some c2)
    (hfree : fsLookup fs path = none)
    (hlen : (h raw).length = CHECKSUM_SIZE) :
    JournalEra.create h parse fs2 path raw = .error (.ioAlreadyExists path) ∧
    JournalEra.create h parse fs path raw =
      .ok ((path, h raw ++ raw) :: fs,
           { file := path, mmap := h raw ++ raw, cache := cache_memory parse raw }) := by
  have htake : (h raw ++ raw).take CHECKSUM_SIZE = h raw := by
    rw [← hlen]
    exact List.take_left _ _
  have hdrop : (h raw ++ raw).drop CHECKSUM_SIZE = raw := by
    rw [← hlen]
    exact List.drop_left _ _
  have hopen2 : JournalEra.open h parse path (h raw ++ raw) =
      .ok { file := path, mmap := h raw ++ raw, cache := cache_memory parse raw } := by
    rw [open_eq, htake, hdrop, if_neg (not_not_intro rfl)]
  constructor
  · simp only [create_eq, hex]
  · simp only [create_eq, hfree, hopen2]

/-- Witness for C9: creating segment `f` from payload [7] on an empty file
system succeeds as described; with path `f` already present it fails. -/
theorem era_create_exclusive_and_reopens_witness :
    fsLookup [("f".data, ([] : List Nat))] "f".data = some [] ∧
    fsLookup [] "f".data = none ∧
    (h0 [7]).length = CHECKSUM_SIZE ∧
    (JournalEra.create h0 parse0 [("f".data, [])] "f".data [7] =
        .error (.ioAlreadyExists "f".data) ∧
     JournalEra.create h0 parse0 [] "f".data [7] =
        .ok (("f".data, h0 [7] ++ [7]) :: [],
             { file := "f".data, mmap := h0 [7] ++ [7], cache := cache_memory parse0 [7] })) :=
  ⟨rfl, rfl, by decide,
    era_create_exclusive_and_reopens h0 parse0 [] [("f".data, [])] "f".data [7] []
      rfl rfl (by decide)⟩

/-- C10: when segment creation fails, `Journal::push` returns the error with
the in-memory `next_era_index` already incremented by 1 and the segment
collection unchanged: a failed push is not atomic on the index counter. -/
theorem push_failure_increments_index (h : List Nat → List Nat)
    (parse : List Nat → List Operation) (fs : FS) (j : Journal) (raw : List Nat)
    (e : JErr)
    (hfail : JournalEra.create h parse fs (dir.next_era_filename j.dir j.next_era_index) raw =
      .error e) :
    (Journal.push h parse fs j raw).2 = .error e ∧
    (Journal.push h parse fs j raw).1.next_era_index = j.next_era_index + 1 ∧
    (Journal.push h parse fs j raw).1.eras = j.eras := by
  have hpush : Journal.push h parse fs j raw =
      (match JournalEra.create h parse fs (dir.next_era_filename j.dir j.next_era_index) raw with
       | .error e1 => ({ j with next_era_index := j.next_era_index + 1 }, .error e1)
       | .ok (fs1, new_era) =>
         ({ j with next_era_index := j.next_era_index + 1, eras := j.eras ++ [new_era] },
          .ok fs1)) := rfl
  rw [hpush, hfail]
  exact ⟨rfl, rfl, rfl⟩

/-- Witness for C10: pushing onto a fresh journal over directory `d` while the
file `d/0.era` already exists. -/
theorem push_failure_increments_index_witness :
    JournalEra.create h0 parse0 pushFailFS
        (dir.next_era_filename jEmpty.dir jEmpty.next_era_index) [] =
      .error (.ioAlreadyExists (dir.next_era_filename "d".data 0)) ∧
    ((Journal.push h0 parse0 pushFailFS jEmpty []).2 =
        .error (.ioAlreadyExists (dir.next_era_filename "d".data 0)) ∧
     (Journal.push h0 parse0 pushFailFS jEmpty []).1.next_era_index =
        jEmpty.next_era_index + 1 ∧
     (Journal.push h0 parse0 pushFailFS jEmpty []).1.eras = jEmpty.eras) :=
  ⟨by decide,
    push_failure_increments_index h0 parse0 pushFailFS jEmpty []
      (.ioAlreadyExists (dir.next_era_filename "d".data 0)) (by decide)⟩

end ParityDB
